import Mathlib

/-!
Verification of `deployer` (package `common`, file `transfer.go`).

The Go source transfers one file between the local machine and a set of
remote hosts over SSH/SFTP.  This file gives a shallow embedding of the
transfer logic: Go strings are modelled as `String` (character lists for
the splitting primitives; the only separators used, `.`, `:`, `/`, are
single-byte ASCII, so byte-level Go splitting coincides with
character-level splitting), remote/local filesystem answers and the peer
address are explicit inputs of each per-host environment, and the
concurrent fan-out with a mutex-guarded result map is modelled as a fold
over the hosts (the mutex makes the map writes atomic, and the stated
properties are order-independent).
-/

namespace Deployer

/-- Go `strings.Split(s, string(sep))` for a single-character separator,
on character lists. -/
def splitChar (sep : Char) : List Char → List (List Char)
  | [] => [[]]
  | c :: cs =>
    match splitChar sep cs with
    | [] => [[]]
    | p :: ps => if c = sep then [] :: p :: ps else (c :: p) :: ps

/-- Go `strings.Join(parts, string(sep))` for a single-character
separator. -/
def joinChar (sep : Char) : List (List Char) → List Char
  | [] => []
  | [p] => p
  | p :: q :: ps => p ++ sep :: joinChar sep (q :: ps)

/-- Split a character list at the last occurrence of `sep`: returns the
part before it and `some` part after it, or the whole list and `none`
when `sep` does not occur.  Used to state the specified
"split at the final separator" semantics. -/
def splitAtLastChar (sep : Char) : List Char → List Char × Option (List Char)
  | [] => ([], none)
  | c :: cs =>
    match splitAtLastChar sep cs with
    | (st, some ex) => (c :: st, some ex)
    | (st, none) => if c = sep then ([], some st) else (c :: st, none)

/-- Go `strings.Replace(s, ".", "-", -1)`. -/
def replaceDotDash (l : List Char) : List Char :=
  l.map (fun c => if c = '.' then '-' else c)

/-- Go `strings.Split(addr, ":")[0]`: the part of the address before
the first colon. -/
def addrHostList (addr : List Char) : List Char :=
  addr.takeWhile (fun c => c ≠ ':')

/-- The local destination file name built by `Transfer.get`
(transfer.go lines 159-170): split the basename on every dot, and when
there are at least two pieces take the last as extension `ext` and
rejoin the rest with dots as `prefName`; otherwise `prefName` is the
whole basename and `ext` is the empty string.  The name is
`prefName + "-" + dashedPeerIP + "." + ext`, where the dashed peer IP is
the address up to the first colon with dots replaced by dashes. -/
def destFileNameList (basename addrFirst : List Char) : List Char :=
  let exp := splitChar '.' basename
  let lenth := exp.length
  let dashed := replaceDotDash addrFirst
  let pe : List Char × List Char :=
    if lenth > 1 then (joinChar '.' (exp.take (lenth - 1)), exp.getLastD [])
    else (basename, [])
  pe.1 ++ '-' :: dashed ++ '.' :: pe.2

/-- String-level wrapper of `destFileNameList`; `addr` is the full peer
address (`host:port`) as returned by `RemoteAddr().String()`. -/
def destFileName (basename addr : String) : String :=
  String.mk (destFileNameList basename.toList (addrHostList addr.toList))

/-- The destination file name exactly as the specification claims it:
stem and extension from the split at the final dot, and when the
basename has no dot the output carries no extension part and no
trailing separator. -/
def destFileNameSpecList (basename addrFirst : List Char) : List Char :=
  let dashed := replaceDotDash addrFirst
  match splitAtLastChar '.' basename with
  | (st, some ex) => st ++ '-' :: dashed ++ '.' :: ex
  | (st, none) => st ++ '-' :: dashed

/-- String-level wrapper of `destFileNameSpecList`. -/
def destFileNameSpec (basename addr : String) : String :=
  String.mk (destFileNameSpecList basename.toList (addrHostList addr.toList))

/-- The destination file name as amended: the separator and the
(possibly empty) extension are always appended after the dashed peer
address, so a basename without a separator yields a name with a
trailing dot. -/
def destFileNameAmendedList (basename addrFirst : List Char) : List Char :=
  let dashed := replaceDotDash addrFirst
  let pe := splitAtLastChar '.' basename
  pe.1 ++ '-' :: dashed ++ '.' :: pe.2.getD []

/-- String-level wrapper of `destFileNameAmendedList`. -/
def destFileNameAmended (basename addr : String) : String :=
  String.mk (destFileNameAmendedList basename.toList (addrHostList addr.toList))

/-- Go `path.Base`: empty path gives `"."`, all-slash paths give `"/"`,
otherwise the last component after stripping trailing slashes. -/
def goPathBaseList (s : List Char) : List Char :=
  if s = [] then ['.']
  else
    let t := (s.reverse.dropWhile (fun c => c = '/')).reverse
    if t = [] then ['/']
    else (t.reverse.takeWhile (fun c => c ≠ '/')).reverse

/-- String-level wrapper of `goPathBaseList`. -/
def goPathBase (s : String) : String :=
  String.mk (goPathBaseList s.toList)

/-- Component processing of Go `path.Clean`: drop empty and `"."`
components; `".."` pops the previous component unless it is itself a
kept `".."`, and is dropped at the root.  The accumulator holds the kept
components in reverse. -/
def cleanStack (rooted : Bool) : List (List Char) → List (List Char) → List (List Char)
  | [], acc => acc.reverse
  | c :: cs, acc =>
    if c = [] ∨ c = ['.'] then cleanStack rooted cs acc
    else if c = ['.', '.'] then
      match acc with
      | [] => if rooted then cleanStack rooted cs [] else cleanStack rooted cs [c]
      | a :: rest =>
        if a = ['.', '.'] then cleanStack rooted cs (c :: a :: rest)
        else cleanStack rooted cs rest
    else cleanStack rooted cs (c :: acc)

/-- Go `path.Clean` on character lists. -/
def goPathCleanList (s : List Char) : List Char :=
  if s = [] then ['.']
  else
    let rooted := s.headD ' ' = '/'
    let comps := cleanStack rooted (splitChar '/' s) []
    let body := joinChar '/' comps
    if rooted then '/' :: body
    else if body = [] then ['.'] else body

/-- String-level wrapper of `goPathCleanList`. -/
def goPathClean (s : String) : String :=
  String.mk (goPathCleanList s.toList)

/-- Go `path.Join(a, b)`: empty elements are skipped, the rest are
joined with `/` and cleaned; all-empty input gives the empty string. -/
def goPathJoin (a b : String) : String :=
  if a.isEmpty && b.isEmpty then ""
  else if a.isEmpty then goPathClean b
  else if b.isEmpty then goPathClean a
  else String.mk (goPathCleanList (a.toList ++ '/' :: b.toList))

/-- Constant `TransferGet` of transfer.go. -/
def TransferGet : String := "GET"

/-- Constant `TransferPut` of transfer.go. -/
def TransferPut : String := "PUT"

/-- Struct `FileTransfer` of transfer.go: the recorded outcome of one
per-host transfer.  `Elapse` is a `time.Duration`, i.e. a nanosecond
count (non-negative here, being a difference of wall-clock readings
taken in order). -/
structure FileTransfer where
  Source : String
  Target : String
  Size : Int
  Elapse : Nat
  deriving Repr, DecidableEq

/-- The `os.FileInfo` answer of a successful remote `Stat`: name, size
and directory flag. -/
structure RemoteStat where
  name : String
  size : Int
  isDir : Bool
  deriving Repr, DecidableEq

/-- The external world one per-host task interacts with: the peer
address reported by `c.Conn.RemoteAddr().String()`, the remote `Stat`
answer (`none` = stat error) used by `get`, whether the remote target
exists (`Stat` error is `nil`) used by `put`, whether opening the
source / destination file succeeds, the successive non-empty chunks the
source `Read` calls deliver into the 1024-byte buffer before the first
zero-length read, the prior content of the remote target file, and the
measured wall-clock elapsed nanoseconds. -/
structure HostEnv where
  addr : String
  remoteStat : Option RemoteStat
  remoteExists : Bool
  srcOpenOk : Bool
  dstOpenOk : Bool
  chunks : List (List Nat)
  remoteContent : List Nat
  elapse : Nat
  deriving Repr, DecidableEq

/-- What `os.Stat` finds at the local path: nothing (with the fate of
the subsequent `MkdirAll`), a regular file, or a directory. -/
inductive LocalFs
  | absent (mkdirOk : Bool)
  | file
  | dir
  deriving Repr, DecidableEq

/-- One configured host: the host string from `t.Hosts`, whether
`ssh.Dial` and `sftp.NewClient` succeed for it, and its per-host
environment. -/
structure HostConn where
  host : String
  dialOk : Bool
  sftpOk : Bool
  env : HostEnv
  deriving Repr, DecidableEq

/-- Struct `Transfer` of transfer.go together with the external
configuration it reads: `maxSize` is `C.TransferMaxSize`, `defaultPort`
is `C.Server.DefaultPort`, and `localStat` is the state of the local
filesystem at `LocalPath`. -/
structure Transfer where
  Method : String
  LocalPath : String
  RemotePath : String
  Hosts : List HostConn
  Override : Bool
  maxSize : Int
  defaultPort : Nat
  localStat : LocalFs
  deriving Repr, DecidableEq

/-- The copy loop shared by `get` and `put` (transfer.go lines 182-189
and 227-234): repeatedly read a chunk, stop at the first read of fewer
than one byte, otherwise add the chunk length to the running size and
write the chunk.  Returns the summed size and the concatenation of the
written chunks. -/
def copyLoop : List (List Nat) → Int × List Nat
  | [] => (0, [])
  | c :: rest =>
    if c.length < 1 then (0, [])
    else
      let r := copyLoop rest
      (Int.ofNat c.length + r.1, c ++ r.2)

/-- Result of one per-host `get`: the error returned (if any), the
entry written into `TransferResult` (if any), and the bytes written to
the local destination file. -/
structure GetOutcome where
  err : Option String
  recorded : Option (String × FileTransfer)
  written : List Nat
  deriving Repr, DecidableEq

/-- Result of one per-host `put`: the error returned (if any), the
entry written into `TransferResult` (if any), whether the remote target
was opened for writing, and the content of the remote target when the
task finishes. -/
structure PutOutcome where
  err : Option String
  recorded : Option (String × FileTransfer)
  remoteOpened : Bool
  remoteContent : List Nat
  deriving Repr, DecidableEq

/-- Method `(*Transfer).get` (transfer.go lines 142-196): stat the
remote file, reject directories and files strictly larger than the
configured maximum, open the remote source, build the local destination
name from the basename and the peer address, open the destination for
create-truncate-write, run the copy loop and record the outcome keyed
by the peer address.  `Source` is `srcFile.Name()` (the path given to
`Open`), `Target` is `dstFile.Name()` (the path given to `OpenFile`). -/
def Transfer.get (t : Transfer) (env : HostEnv) : GetOutcome :=
  match env.remoteStat with
  | none => { err := some "remote stat error", recorded := none, written := [] }
  | some fi =>
    if fi.isDir then
      { err := some "Remote dir get is not supported", recorded := none, written := [] }
    else if fi.size > t.maxSize then
      { err := some ("Max transfer size is set to " ++ toString t.maxSize),
        recorded := none, written := [] }
    else if !env.srcOpenOk then
      { err := some "remote open error", recorded := none, written := [] }
    else
      let basename := goPathBase fi.name
      let target := goPathJoin t.LocalPath (destFileName basename env.addr)
      if !env.dstOpenOk then
        { err := some "local open error", recorded := none, written := [] }
      else
        let r := copyLoop env.chunks
        { err := none,
          recorded := some (env.addr,
            { Source := t.RemotePath, Target := target, Size := r.1, Elapse := env.elapse }),
          written := r.2 }

/-- Go `strings.HasSuffix(s, "/")`: the last byte of `s` is `/`. -/
def hasSlashSuffix (s : String) : Bool :=
  s.toList.getLast? = some '/'

/-- Method `(*Transfer).put` (transfer.go lines 197-242): when the
remote path ends in `/` treat it as a directory and `path.Join` the
local basename onto it; when the (adjusted) remote target exists and
`Override` is unset fail with "Remote file exists" before opening the
remote file; otherwise open the local source, open the remote target
for create-truncate-write (replacing its content with the copied
bytes), run the copy loop and record the outcome keyed by the peer
address. -/
def Transfer.put (t : Transfer) (env : HostEnv) : PutOutcome :=
  let remotePath :=
    if hasSlashSuffix t.RemotePath then goPathJoin t.RemotePath (goPathBase t.LocalPath)
    else t.RemotePath
  if env.remoteExists && !t.Override then
    { err := some "Remote file exists", recorded := none,
      remoteOpened := false, remoteContent := env.remoteContent }
  else if !env.srcOpenOk then
    { err := some "local open error", recorded := none,
      remoteOpened := false, remoteContent := env.remoteContent }
  else if !env.dstOpenOk then
    { err := some "remote open error", recorded := none,
      remoteOpened := false, remoteContent := env.remoteContent }
  else
    let r := copyLoop env.chunks
    { err := none,
      recorded := some (env.addr,
        { Source := t.LocalPath, Target := remotePath, Size := r.1, Elapse := env.elapse }),
      remoteOpened := true,
      remoteContent := r.2 }

/-- Go map assignment `m[k] = v`: replace the entry when the key is
present, append it otherwise. -/
def goMapInsert (m : List (String × FileTransfer)) (k : String) (v : FileTransfer) :
    List (String × FileTransfer) :=
  if m.any (fun p => p.1 = k) then m.map (fun p => if p.1 = k then (k, v) else p)
  else m ++ [(k, v)]

/-- The aggregation of per-host recorded entries into `TransferResult`:
each task that records an entry performs one mutex-guarded map
assignment; tasks that fail record nothing.  The concurrent
interleaving is modelled as a fold in host order (the properties proved
about it are permutation-invariant). -/
def recordFold (f : HostEnv → Option (String × FileTransfer)) :
    List HostEnv → List (String × FileTransfer) → List (String × FileTransfer)
  | [], m => m
  | e :: es, m =>
    match f e with
    | some (k, v) => recordFold f es (goMapInsert m k v)
    | none => recordFold f es m

/-- The `TransferResult` map after the fan-out of `batchGet`
(transfer.go lines 102-114). -/
def Transfer.batchGetResults (t : Transfer) : List (String × FileTransfer) :=
  recordFold (fun e => (t.get e).recorded) (t.Hosts.map (fun h => h.env)) []

/-- The `TransferResult` map after the fan-out of `batchPut`
(transfer.go lines 126-138). -/
def Transfer.batchPutResults (t : Transfer) : List (String × FileTransfer) :=
  recordFold (fun e => (t.put e).recorded) (t.Hosts.map (fun h => h.env)) []

/-- The SSH clients and SFTP sessions held in `t.Clients` and
`t.SftpClient`, identified by their normalized host keys. -/
structure ClientPools where
  clients : List String
  sftps : List String
  deriving Repr, DecidableEq

/-- Result of `initClient`: the hosts for which a dial was attempted,
the pools as left behind, and the error returned (if any). -/
structure InitResult where
  attempted : List String
  pools : ClientPools
  err : Option String
  deriving Repr, DecidableEq

/-- Host normalization of `initClient` (transfer.go lines 256-258):
append `":" + DefaultPort` when the host string has no colon
(`strings.Index(h, ":") < 0`). -/
def normalizeHost (defaultPort : Nat) (h : String) : String :=
  if ':' ∈ h.toList then h else h ++ ":" ++ toString defaultPort

/-- The sequential dial loop of `initClient` (transfer.go lines
255-268): for each host in order, dial; on dial failure return that
error at once; otherwise store the client, negotiate an SFTP session;
on failure return that error at once; otherwise store the session and
continue.  Nothing is closed on the error paths. -/
def initClientGo (defaultPort : Nat) :
    List HostConn → ClientPools → List String → InitResult
  | [], pools, att => { attempted := att, pools := pools, err := none }
  | h :: hs, pools, att =>
    let hn := normalizeHost defaultPort h.host
    let att := att ++ [hn]
    if !h.dialOk then { attempted := att, pools := pools, err := some "ssh dial error" }
    else
      let pools := { pools with clients := pools.clients ++ [hn] }
      if !h.sftpOk then { attempted := att, pools := pools, err := some "sftp session error" }
      else initClientGo defaultPort hs { pools with sftps := pools.sftps ++ [hn] } att

/-- Method `(*Transfer).initClient` (transfer.go lines 244-270). -/
def Transfer.initClient (t : Transfer) : InitResult :=
  initClientGo t.defaultPort t.Hosts { clients := [], sftps := [] } []

/-- Observable report of one `Start` run: the returned error (if any),
whether the process was terminated by `log.Fatalln`, the hosts dialed,
the sessions still open when `Start` returns (or the process exits),
and the final `TransferResult` map. -/
structure StartReport where
  err : Option String
  fatal : Bool
  dialAttempts : List String
  openAtExit : ClientPools
  results : List (String × FileTransfer)
  deriving Repr, DecidableEq

/-- Pools with every session closed. -/
def emptyPools : ClientPools := { clients := [], sftps := [] }

/-- Method `(*Transfer).Start` (transfer.go lines 68-88) together with
the bodies of `batchGet` (90-116) and `batchPut` (118-140).  `Start`
calls `initClient` first and returns its error directly — the `defer`
that closes every session is registered only after `initClient`
succeeds, so on that path the pools stay open.  `batchGet` stats the
local path: when absent it is created (`MkdirAll`), when it is a
regular file `log.Fatalln` exits the process (skipping the deferred
closes), otherwise the per-host `get` tasks run and their errors are
only printed.  `batchPut` requires an existing regular file and rejects
directories; per-host `put` errors are only printed.  An unrecognized
method closes the sessions and returns `nil`. -/
def Transfer.Start (t : Transfer) : StartReport :=
  let ir := t.initClient
  match ir.err with
  | some e =>
    { err := some e, fatal := false, dialAttempts := ir.attempted,
      openAtExit := ir.pools, results := [] }
  | none =>
    if t.Method = TransferGet then
      match t.localStat with
      | .absent mkdirOk =>
        if mkdirOk then
          { err := none, fatal := false, dialAttempts := ir.attempted,
            openAtExit := emptyPools, results := t.batchGetResults }
        else
          { err := some "mkdir error", fatal := false, dialAttempts := ir.attempted,
            openAtExit := emptyPools, results := [] }
      | .file =>
        { err := none, fatal := true, dialAttempts := ir.attempted,
          openAtExit := ir.pools, results := [] }
      | .dir =>
        { err := none, fatal := false, dialAttempts := ir.attempted,
          openAtExit := emptyPools, results := t.batchGetResults }
    else if t.Method = TransferPut then
      match t.localStat with
      | .absent _ =>
        { err := some "local stat error", fatal := false, dialAttempts := ir.attempted,
          openAtExit := emptyPools, results := [] }
      | .dir =>
        { err := some "Local is dir,recursive transfer not supported now", fatal := false,
          dialAttempts := ir.attempted, openAtExit := emptyPools, results := [] }
      | .file =>
        { err := none, fatal := false, dialAttempts := ir.attempted,
          openAtExit := emptyPools, results := t.batchPutResults }
    else
      { err := none, fatal := false, dialAttempts := ir.attempted,
        openAtExit := emptyPools, results := [] }

/-- The `%21s` verb of `PrettyPrint`: right-justify the host in a
21-character minimum field, padding with spaces. -/
def padHost (h : String) : String :=
  String.mk (List.replicate (21 - h.length) ' ') ++ h

/-- The `%.2f` rendering of `ft.Elapse.Seconds()`: the elapsed
nanoseconds as seconds with two decimals (decimal idealization of the
Go float64 formatting, rounding half up). -/
def formatSeconds2 (ns : Nat) : String :=
  let hundredths := (ns + 5000000) / 10000000
  toString (hundredths / 100) ++ "." ++
    (if hundredths % 100 < 10 then "0" else "") ++ toString (hundredths % 100)

/-- One output line of `PrettyPrint` (transfer.go line 275), without
the trailing newline:
`fmt.Printf("%21s: %s => %s %dByte %.2f seconds\n", h, ft.Source, ft.Target, ft.Size, ft.Elapse.Seconds())`. -/
def prettyLine (h : String) (ft : FileTransfer) : String :=
  padHost h ++ ": " ++ ft.Source ++ " => " ++ ft.Target ++ " " ++
    toString ft.Size ++ "Byte " ++ formatSeconds2 ft.Elapse ++ " seconds"

/-- The line format exactly as the specification claims it:
`<host>: <source> => <destination> <bytes>Byte <elapsed with 2 decimals> seconds`
with the host printed as is. -/
def claimLine (h : String) (ft : FileTransfer) : String :=
  h ++ ": " ++ ft.Source ++ " => " ++ ft.Target ++ " " ++
    toString ft.Size ++ "Byte " ++ formatSeconds2 ft.Elapse ++ " seconds"

/-- Method `(*Transfer).PrettyPrint` (transfer.go lines 272-277): one
line per entry of the result map. -/
def Transfer.PrettyPrint (results : List (String × FileTransfer)) : List String :=
  results.map (fun p => prettyLine p.1 p.2)

/-- A per-host environment in which everything succeeds: the remote
file `app.bin` has 4 bytes, delivered in two reads of two bytes. -/
def envA : HostEnv :=
  { addr := "10.0.0.1:22",
    remoteStat := some { name := "app.bin", size := 4, isDir := false },
    remoteExists := false, srcOpenOk := true, dstOpenOk := true,
    chunks := [[1, 2], [3, 4]], remoteContent := [9], elapse := 0 }

/-- Like `envA` but the remote target of a send already exists. -/
def envExists : HostEnv := { envA with remoteExists := true }

/-- A host whose dial and SFTP negotiation succeed. -/
def hostOkA : HostConn := { host := "10.0.0.1", dialOk := true, sftpOk := true, env := envA }

/-- A host whose dial fails. -/
def hostBad : HostConn :=
  { host := "10.0.0.2", dialOk := false, sftpOk := true,
    env := { envA with addr := "10.0.0.2:22" } }

/-- A host that dials successfully but whose SFTP session negotiation
fails. -/
def hostSftpBad : HostConn :=
  { host := "10.0.0.3", dialOk := true, sftpOk := false,
    env := { envA with addr := "10.0.0.3:22" } }

/-- A fetch configuration over one good and one undialable host. -/
def tLeak : Transfer :=
  { Method := "GET", LocalPath := "/tmp/dest", RemotePath := "/etc/app.bin",
    Hosts := [hostOkA, hostBad], Override := false, maxSize := 100,
    defaultPort := 22, localStat := .dir }

/-- A fetch configuration over one good host and one host whose SFTP
session negotiation fails. -/
def tLeakSftp : Transfer := { tLeak with Hosts := [hostOkA, hostSftpBad] }

/-- A fetch configuration whose local destination is an existing
regular file. -/
def tFileDest : Transfer := { tLeak with Hosts := [hostOkA], localStat := .file }

/-- A send configuration with overwrite disabled against a host whose
remote target exists. -/
def tPutExists : Transfer :=
  { Method := "PUT", LocalPath := "/tmp/app.bin", RemotePath := "/srv/app.bin",
    Hosts := [{ hostOkA with env := envExists }], Override := false, maxSize := 100,
    defaultPort := 22, localStat := .file }

/-- An all-success per-host environment delivering no bytes. -/
def envSimple : HostEnv :=
  { addr := "10.0.0.1:22", remoteStat := none, remoteExists := false,
    srcOpenOk := true, dstOpenOk := true, chunks := [], remoteContent := [],
    elapse := 0 }

/-- A send whose remote path has a redundant trailing double slash. -/
def tSlash : Transfer :=
  { Method := "PUT", LocalPath := "b", RemotePath := "a//",
    Hosts := [{ hostOkA with env := envSimple }], Override := false, maxSize := 100,
    defaultPort := 22, localStat := .file }

/-- A configuration whose method is neither GET nor PUT. -/
def tPost : Transfer := { tLeak with Method := "POST", Hosts := [hostOkA] }

theorem splitChar_ne_nil (sep : Char) (l : List Char) : splitChar sep l ≠ [] := by
  cases l with
  | nil => simp [splitChar]
  | cons c cs =>
    rcases h : splitChar sep cs with _ | ⟨p, ps⟩
    · simp [splitChar, h]
    · by_cases hc : c = sep <;> simp [splitChar, h, hc]

theorem joinChar_splitChar (sep : Char) (l : List Char) :
    joinChar sep (splitChar sep l) = l := by
  induction l with
  | nil => simp [splitChar, joinChar]
  | cons c cs ih =>
    rcases h : splitChar sep cs with _ | ⟨p, ps⟩
    · exact absurd h (splitChar_ne_nil sep cs)
    · rw [h] at ih
      by_cases hc : c = sep
      · subst hc
        simp only [splitChar, h, if_pos rfl, joinChar]
        simpa using ih
      · simp only [splitChar, h, if_neg hc]
        cases ps with
        | nil =>
          simp only [joinChar] at ih ⊢
          simp [ih]
        | cons q qs =>
          simp only [joinChar] at ih ⊢
          simp [ih]

theorem splitChar_append_sep (sep : Char) (xs ys : List Char) :
    splitChar sep (xs ++ sep :: ys) = splitChar sep xs ++ splitChar sep ys := by
  induction xs with
  | nil =>
    rcases h : splitChar sep ys with _ | ⟨p, ps⟩
    · exact absurd h (splitChar_ne_nil sep ys)
    · simp [splitChar, h]
  | cons c cs ih =>
    rcases h2 : splitChar sep cs with _ | ⟨q, qs⟩
    · exact absurd h2 (splitChar_ne_nil sep cs)
    · rcases h : splitChar sep (cs ++ sep :: ys) with _ | ⟨p, ps⟩
      · exact absurd h (splitChar_ne_nil _ _)
      · rw [h, h2] at ih
        have hp : p = q ∧ ps = qs ++ splitChar sep ys := by
          simpa using ih
        by_cases hc : c = sep <;>
          simp [splitChar, h, h2, hc, hp.1, hp.2]

theorem splitChar_of_not_mem (sep : Char) (l : List Char) (h : sep ∉ l) :
    splitChar sep l = [l] := by
  induction l with
  | nil => simp [splitChar]
  | cons c cs ih =>
    have hc : ¬c = sep := fun e => h (by simp [e])
    have hcs : sep ∉ cs := fun m => h (List.mem_cons_of_mem c m)
    simp [splitChar, ih hcs, hc]

theorem splitAtLastChar_eq (sep : Char) (l : List Char) :
    (splitAtLastChar sep l = (l, none) ∧ sep ∉ l) ∨
    (∃ st ex, splitAtLastChar sep l = (st, some ex) ∧ l = st ++ sep :: ex ∧ sep ∉ ex) := by
  induction l with
  | nil => left; simp [splitAtLastChar]
  | cons c cs ih =>
    rcases ih with ⟨h1, h2⟩ | ⟨st, ex, h1, h2, h3⟩
    · by_cases hc : c = sep
      · right
        exact ⟨[], cs, by simp [splitAtLastChar, h1, hc], by simp [hc], h2⟩
      · left
        constructor
        · simp [splitAtLastChar, h1, hc]
        · intro hm
          rcases List.mem_cons.mp hm with he | hm2
          · exact hc he.symm
          · exact h2 hm2
    · right
      exact ⟨c :: st, ex, by simp [splitAtLastChar, h1], by simp [h2], h3⟩

theorem destFileNameList_eq_amended (b a : List Char) :
    destFileNameList b a = destFileNameAmendedList b a := by
  rcases splitAtLastChar_eq '.' b with ⟨h1, h2⟩ | ⟨st, ex, h1, h2, h3⟩
  · simp [destFileNameList, destFileNameAmendedList, h1,
      splitChar_of_not_mem '.' b h2]
  · have hb : splitChar '.' b = splitChar '.' st ++ [ex] := by
      rw [h2, splitChar_append_sep, splitChar_of_not_mem '.' ex h3]
    have hpos : splitChar '.' st ≠ [] := splitChar_ne_nil '.' st
    have hlen : 0 < (splitChar '.' st).length := List.length_pos.mpr hpos
    have hgt : (splitChar '.' st ++ [ex]).length > 1 := by
      simp only [List.length_append, List.length_singleton]
      omega
    have htake : (splitChar '.' st ++ [ex]).length - 1 = (splitChar '.' st).length := by
      simp
    simp only [destFileNameList, destFileNameAmendedList, hb, h1]
    rw [if_pos hgt, htake, List.take_left, joinChar_splitChar, List.getLastD_concat]
    simp

/-- C1 (counterexample): for a basename without a separator the code
still appends the separator: fetching `file` from peer `10.0.0.1:22`
names the local file `file-10-0-0-1.` (trailing dot), while the claim
says the output name carries no extension part and no trailing
separator. -/
theorem C1_counterexample :
    destFileName "file" "10.0.0.1:22" = "file-10-0-0-1." ∧
    destFileNameSpec "file" "10.0.0.1:22" = "file-10-0-0-1" ∧
    destFileName "file" "10.0.0.1:22" ≠ destFileNameSpec "file" "10.0.0.1:22" := by
  refine ⟨by decide, by decide, by decide⟩

/-- C1 (amended): the local destination filename of every fetch is
`<stem>-<peer-ip-with-dots-replaced-by-dashes>.<ext>`, where stem and
ext come from splitting the remote basename at its final separator;
when the basename contains no separator the whole basename is the stem,
the extension is empty, and the separator is still appended (the name
ends in a trailing dot). -/
theorem C1_dest_filename (basename addr : String) :
    destFileName basename addr = destFileNameAmended basename addr := by
  unfold destFileName destFileNameAmended
  rw [destFileNameList_eq_amended]

theorem copyLoop_eq_flatten (chunks : List (List Nat)) (h : ∀ c ∈ chunks, c ≠ []) :
    copyLoop chunks = (Int.ofNat chunks.flatten.length, chunks.flatten) := by
  induction chunks with
  | nil => simp [copyLoop]
  | cons c cs ih =>
    have hc : c ≠ [] := h c (by simp)
    have hlen : ¬c.length < 1 := by
      have := List.length_pos.mpr hc
      omega
    rw [copyLoop, if_neg hlen, ih (fun x hx => h x (List.mem_cons_of_mem c hx))]
    simp [List.flatten_cons]

theorem get_recorded_eq (t : Transfer) (env : HostEnv) (k : String) (ft : FileTransfer)
    (hr : (t.get env).recorded = some (k, ft)) :
    ∃ fi, env.remoteStat = some fi ∧ k = env.addr ∧
      ft = { Source := t.RemotePath,
             Target := goPathJoin t.LocalPath (destFileName (goPathBase fi.name) env.addr),
             Size := (copyLoop env.chunks).1, Elapse := env.elapse } ∧
      (t.get env).written = (copyLoop env.chunks).2 ∧ (t.get env).err = none := by
  rcases hst : env.remoteStat with _ | fi
  · simp [Transfer.get, hst] at hr
  · by_cases hd : fi.isDir
    · simp [Transfer.get, hst, hd] at hr
    · by_cases hsz : fi.size > t.maxSize
      · simp [Transfer.get, hst, hd, hsz] at hr
      · by_cases hso : env.srcOpenOk
        · by_cases hdo : env.dstOpenOk
          · have hout : t.get env =
                { err := none,
                  recorded := some (env.addr,
                    { Source := t.RemotePath,
                      Target := goPathJoin t.LocalPath (destFileName (goPathBase fi.name) env.addr),
                      Size := (copyLoop env.chunks).1, Elapse := env.elapse }),
                  written := (copyLoop env.chunks).2 } := by
              simp [Transfer.get, hst, hd, hsz, hso, hdo]
            rw [hout] at hr
            simp only [Option.some.injEq, Prod.mk.injEq] at hr
            exact ⟨fi, rfl, hr.1.symm, hr.2.symm, by rw [hout], by rw [hout]⟩
          · simp [Transfer.get, hst, hd, hsz, hso, hdo] at hr
        · simp [Transfer.get, hst, hd, hsz, hso] at hr

theorem put_recorded_eq (t : Transfer) (env : HostEnv) (k : String) (ft : FileTransfer)
    (hr : (t.put env).recorded = some (k, ft)) :
    k = env.addr ∧
    ft = { Source := t.LocalPath,
           Target := if hasSlashSuffix t.RemotePath then
             goPathJoin t.RemotePath (goPathBase t.LocalPath) else t.RemotePath,
           Size := (copyLoop env.chunks).1, Elapse := env.elapse } ∧
    (t.put env).remoteContent = (copyLoop env.chunks).2 ∧ (t.put env).err = none := by
  by_cases hex : (env.remoteExists && !t.Override) = true
  · simp [Transfer.put, hex] at hr
  · by_cases hso : env.srcOpenOk
    · by_cases hdo : env.dstOpenOk
      · have hout : t.put env =
            { err := none,
              recorded := some (env.addr,
                { Source := t.LocalPath,
                  Target := if hasSlashSuffix t.RemotePath then
                    goPathJoin t.RemotePath (goPathBase t.LocalPath) else t.RemotePath,
                  Size := (copyLoop env.chunks).1, Elapse := env.elapse }),
              remoteOpened := true, remoteContent := (copyLoop env.chunks).2 } := by
          simp [Transfer.put, hex, hso, hdo]
        rw [hout] at hr
        simp only [Option.some.injEq, Prod.mk.injEq] at hr
        exact ⟨hr.1.symm, hr.2.symm, by rw [hout], by rw [hout]⟩
      · simp [Transfer.put, hex, hso, hdo] at hr
    · simp [Transfer.put, hex, hso] at hr

/-- C6: for every per-host transfer (fetch or send) that records an
outcome, the byte count stored in the outcome equals the exact number
of readable source bytes, and the copy loop moves exactly those bytes
to the destination in order, provided every read before end-of-stream
delivers at least one byte. -/
theorem C6_copy_size (t : Transfer) (env : HostEnv)
    (h : ∀ c ∈ env.chunks, c ≠ []) :
    copyLoop env.chunks = (Int.ofNat env.chunks.flatten.length, env.chunks.flatten) ∧
    (∀ k ft, (t.get env).recorded = some (k, ft) →
      ft.Size = Int.ofNat env.chunks.flatten.length ∧
      (t.get env).written = env.chunks.flatten) ∧
    (∀ k ft, (t.put env).recorded = some (k, ft) →
      ft.Size = Int.ofNat env.chunks.flatten.length ∧
      (t.put env).remoteContent = env.chunks.flatten) := by
  have hcl := copyLoop_eq_flatten env.chunks h
  refine ⟨hcl, ?_, ?_⟩
  · intro k ft hr
    obtain ⟨fi, hst, hk, hft, hw, herr⟩ := get_recorded_eq t env k ft hr
    constructor
    · rw [hft]
      simp [hcl]
    · rw [hw, hcl]
  · intro k ft hr
    obtain ⟨hk, hft, hwc, herr⟩ := put_recorded_eq t env k ft hr
    constructor
    · rw [hft]
      simp [hcl]
    · rw [hwc, hcl]

/-- C6 witness: a concrete all-success fetch and send move the 4 source
bytes and record size 4. -/
theorem C6_witness :
    copyLoop envA.chunks = (Int.ofNat envA.chunks.flatten.length, envA.chunks.flatten) :=
  (C6_copy_size tLeak envA (by decide)).1

/-- C7: a connected host's fetch task fails if and only if the remote
stat fails, the remote path is a directory, the remote size strictly
exceeds the configured maximum, or opening the remote source or the
local destination fails; a remote size exactly equal to the maximum is
transferred. -/
theorem C7_get_failure_iff (t : Transfer) (env : HostEnv) :
    ((t.get env).err.isSome ↔
      env.remoteStat = none ∨
      (∃ fi, env.remoteStat = some fi ∧ (fi.isDir = true ∨ fi.size > t.maxSize)) ∨
      env.srcOpenOk = false ∨ env.dstOpenOk = false) ∧
    (∀ fi, env.remoteStat = some fi → fi.size = t.maxSize → fi.isDir = false →
      env.srcOpenOk = true → env.dstOpenOk = true → (t.get env).err = none) := by
  constructor
  · rcases hst : env.remoteStat with _ | fi
    · simp [Transfer.get, hst]
    · by_cases hd : fi.isDir
      · simp [Transfer.get, hst, hd]
      · by_cases hsz : fi.size > t.maxSize
        · simp [Transfer.get, hst, hd, hsz]
        · by_cases hso : env.srcOpenOk
          · by_cases hdo : env.dstOpenOk
            · simp [Transfer.get, hst, hd, hsz, hso, hdo]
            · simp [Transfer.get, hst, hd, hsz, hso, hdo]
          · simp [Transfer.get, hst, hd, hsz, hso]
  · intro fi hst hsz hd hso hdo
    have hle : ¬fi.size > t.maxSize := by omega
    simp [Transfer.get, hst, hd, hle, hso, hdo]

/-- C7 witness: a remote file whose size equals the maximum exactly is
transferred, not rejected. -/
theorem C7_witness :
    (Transfer.get { tLeak with maxSize := 4 } envA).err = none :=
  (C7_get_failure_iff { tLeak with maxSize := 4 } envA).2
    { name := "app.bin", size := 4, isDir := false } rfl rfl rfl rfl rfl

/-- C5: a per-host send whose remote target exists while the overwrite
flag is unset fails with the "Remote file exists" error before the
remote file is opened for writing, leaves the prior remote content
untouched, records no outcome, and its presence in the batch does not
change what the remaining hosts contribute to the result map. -/
theorem C5_put_exists_no_override (t : Transfer) (env : HostEnv)
    (hex : env.remoteExists = true) (hov : t.Override = false) :
    (t.put env).err = some "Remote file exists" ∧
    (t.put env).recorded = none ∧
    (t.put env).remoteOpened = false ∧
    (t.put env).remoteContent = env.remoteContent ∧
    (∀ es m, recordFold (fun e => (t.put e).recorded) (env :: es) m =
      recordFold (fun e => (t.put e).recorded) es m) := by
  have hput : t.put env =
      { err := some "Remote file exists", recorded := none,
        remoteOpened := false, remoteContent := env.remoteContent } := by
    simp [Transfer.put, hex, hov]
  refine ⟨by rw [hput], by rw [hput], by rw [hput], by rw [hput], ?_⟩
  intro es m
  simp [recordFold, hput]

/-- C5 witness: the concrete overwrite-disabled send against an
existing remote target fails with the exact error and leaves the
remote content `[9]` in place. -/
theorem C5_witness :
    (tPutExists.put envExists).err = some "Remote file exists" ∧
    (tPutExists.put envExists).remoteContent = envExists.remoteContent :=
  ⟨(C5_put_exists_no_override tPutExists envExists rfl rfl).1,
   (C5_put_exists_no_override tPutExists envExists rfl rfl).2.2.2.1⟩

theorem goMapInsert_fresh (m : List (String × FileTransfer)) (k : String) (v : FileTransfer)
    (h : k ∉ m.map Prod.fst) : goMapInsert m k v = m ++ [(k, v)] := by
  unfold goMapInsert
  rw [if_neg]
  intro hc
  rcases List.any_eq_true.mp hc with ⟨p, hp, he⟩
  exact h (List.mem_map.mpr ⟨p, hp, of_decide_eq_true he⟩)

theorem recordFold_keys (f : HostEnv → Option (String × FileTransfer))
    (hf : ∀ e k v, f e = some (k, v) → k = e.addr) :
    ∀ (envs : List HostEnv) (m : List (String × FileTransfer)),
      (m.map Prod.fst ++ envs.map HostEnv.addr).Nodup →
      (recordFold f envs m).map Prod.fst =
        m.map Prod.fst ++ (envs.filter (fun e => (f e).isSome)).map HostEnv.addr := by
  intro envs
  induction envs with
  | nil =>
    intro m _
    simp [recordFold]
  | cons e es ih =>
    intro m h
    rcases hfe : f e with _ | ⟨k, v⟩
    · have hnd : (m.map Prod.fst ++ es.map HostEnv.addr).Nodup := by
        refine List.Nodup.sublist ?_ h
        exact List.Sublist.append_left (List.sublist_cons_self _ _) _
      simp only [recordFold, hfe]
      rw [ih m hnd]
      simp [List.filter_cons, hfe]
    · have hk : k = e.addr := hf e k v hfe
      have hkm : k ∉ m.map Prod.fst := by
        subst hk
        intro hmem
        rcases List.nodup_append.mp h with ⟨_, _, hdisj⟩
        exact hdisj hmem (by simp)
      have hnd2 : ((m ++ [(k, v)]).map Prod.fst ++ es.map HostEnv.addr).Nodup := by
        simp only [List.map_append, List.map_cons, List.map_nil, List.append_assoc,
          List.singleton_append]
        simpa [hk] using h
      simp only [recordFold, hfe]
      rw [goMapInsert_fresh m k v hkm, ih (m ++ [(k, v)]) hnd2]
      simp [List.filter_cons, hfe, hk]

theorem get_recorded_key (t : Transfer) (e : HostEnv) (k : String) (v : FileTransfer)
    (h : (t.get e).recorded = some (k, v)) : k = e.addr :=
  (get_recorded_eq t e k v h).choose_spec.2.1

theorem put_recorded_key (t : Transfer) (e : HostEnv) (k : String) (v : FileTransfer)
    (h : (t.put e).recorded = some (k, v)) : k = e.addr :=
  (put_recorded_eq t e k v h).1

theorem get_recorded_isSome_iff (t : Transfer) (e : HostEnv) :
    (t.get e).recorded.isSome ↔ (t.get e).err = none := by
  rcases hst : e.remoteStat with _ | fi
  · simp [Transfer.get, hst]
  · by_cases hd : fi.isDir
    · simp [Transfer.get, hst, hd]
    · by_cases hsz : fi.size > t.maxSize
      · simp [Transfer.get, hst, hd, hsz]
      · by_cases hso : e.srcOpenOk
        · by_cases hdo : e.dstOpenOk
          · simp [Transfer.get, hst, hd, hsz, hso, hdo]
          · simp [Transfer.get, hst, hd, hsz, hso, hdo]
        · simp [Transfer.get, hst, hd, hsz, hso]

theorem put_recorded_isSome_iff (t : Transfer) (e : HostEnv) :
    (t.put e).recorded.isSome ↔ (t.put e).err = none := by
  by_cases hex : (e.remoteExists && !t.Override) = true
  · simp [Transfer.put, hex]
  · by_cases hso : e.srcOpenOk
    · by_cases hdo : e.dstOpenOk
      · simp [Transfer.put, hex, hso, hdo]
      · simp [Transfer.put, hex, hso, hdo]
    · simp [Transfer.put, hex, hso]

/-- C2: when the peer addresses of the hosts are pairwise distinct (as
they are for distinct dialed endpoints), the number of entries in the
result map after a fetch or send run equals the number of hosts whose
per-host task recorded an outcome — exactly those whose task finished
without error — and a host whose task fails contributes no entry. -/
theorem C2_result_count (t : Transfer)
    (h : (t.Hosts.map (fun hc => hc.env.addr)).Nodup) :
    t.batchGetResults.length =
      (t.Hosts.map (fun hc => hc.env)).countP (fun e => ((t.get e).recorded).isSome) ∧
    t.batchPutResults.length =
      (t.Hosts.map (fun hc => hc.env)).countP (fun e => ((t.put e).recorded).isSome) ∧
    (∀ e, (t.get e).recorded.isSome ↔ (t.get e).err = none) ∧
    (∀ e, (t.put e).recorded.isSome ↔ (t.put e).err = none) ∧
    (∀ e ∈ t.Hosts.map (fun hc => hc.env), (t.get e).recorded = none →
      e.addr ∉ t.batchGetResults.map Prod.fst) ∧
    (∀ e ∈ t.Hosts.map (fun hc => hc.env), (t.put e).recorded = none →
      e.addr ∉ t.batchPutResults.map Prod.fst) := by
  have haddr : (t.Hosts.map (fun hc => hc.env)).map HostEnv.addr =
      t.Hosts.map (fun hc => hc.env.addr) := by
    simp [List.map_map]
  have hndg : (([] : List (String × FileTransfer)).map Prod.fst ++
      (t.Hosts.map (fun hc => hc.env)).map HostEnv.addr).Nodup := by
    simpa [haddr] using h
  have hkeysg := recordFold_keys (fun e => (t.get e).recorded)
    (fun e k v hh => get_recorded_key t e k v hh) (t.Hosts.map (fun hc => hc.env)) [] hndg
  have hkeysp := recordFold_keys (fun e => (t.put e).recorded)
    (fun e k v hh => put_recorded_key t e k v hh) (t.Hosts.map (fun hc => hc.env)) [] hndg
  simp only [List.map_nil, List.nil_append] at hkeysg hkeysp
  have hinj : ∀ x ∈ t.Hosts.map (fun hc => hc.env), ∀ y ∈ t.Hosts.map (fun hc => hc.env),
      x.addr = y.addr → x = y := by
    intro x hx y hy hxy
    exact List.inj_on_of_nodup_map (by simpa [haddr] using h) hx hy hxy
  refine ⟨?_, ?_, fun e => get_recorded_isSome_iff t e, fun e => put_recorded_isSome_iff t e,
    ?_, ?_⟩
  · have := congrArg List.length hkeysg
    simpa [Transfer.batchGetResults, List.countP_eq_length_filter] using this
  · have := congrArg List.length hkeysp
    simpa [Transfer.batchPutResults, List.countP_eq_length_filter] using this
  · intro e he hnone hmem
    rw [Transfer.batchGetResults] at hmem
    rw [hkeysg] at hmem
    rcases List.mem_map.mp hmem with ⟨e2, he2, hae⟩
    have he2' : e2 ∈ t.Hosts.map (fun hc => hc.env) := List.mem_of_mem_filter he2
    have : e2 = e := hinj e2 he2' e he hae
    subst this
    have := List.of_mem_filter he2
    rw [hnone] at this
    simp at this
  · intro e he hnone hmem
    rw [Transfer.batchPutResults] at hmem
    rw [hkeysp] at hmem
    rcases List.mem_map.mp hmem with ⟨e2, he2, hae⟩
    have he2' : e2 ∈ t.Hosts.map (fun hc => hc.env) := List.mem_of_mem_filter he2
    have : e2 = e := hinj e2 he2' e he hae
    subst this
    have := List.of_mem_filter he2
    rw [hnone] at this
    simp at this

/-- C2 witness: the two-host fetch configuration with distinct peer
addresses records one entry per host that succeeded. -/
theorem C2_witness :
    tLeak.batchGetResults.length =
      (tLeak.Hosts.map (fun hc => hc.env)).countP (fun e => ((tLeak.get e).recorded).isSome) :=
  (C2_result_count tLeak (by decide)).1

theorem initClientGo_all_ok (dp : Nat) :
    ∀ (hs : List HostConn) (pools : ClientPools) (att : List String),
      (∀ h ∈ hs, h.dialOk = true ∧ h.sftpOk = true) →
      initClientGo dp hs pools att =
        { attempted := att ++ hs.map (fun h => normalizeHost dp h.host),
          pools := { clients := pools.clients ++ hs.map (fun h => normalizeHost dp h.host),
                     sftps := pools.sftps ++ hs.map (fun h => normalizeHost dp h.host) },
          err := none } := by
  intro hs
  induction hs with
  | nil =>
    intro pools att _
    simp [initClientGo]
  | cons h hs ih =>
    intro pools att hok
    have h1 := hok h (by simp)
    rw [initClientGo]
    simp only [h1.1, h1.2, Bool.not_true, Bool.false_eq_true, if_false]
    rw [ih _ _ (fun x hx => hok x (List.mem_cons_of_mem h hx))]
    simp

theorem initClientGo_fail (dp : Nat) :
    ∀ (pre : List HostConn) (hc : HostConn) (rest : List HostConn)
      (pools : ClientPools) (att : List String),
      (∀ x ∈ pre, x.dialOk = true ∧ x.sftpOk = true) → hc.dialOk = false →
      initClientGo dp (pre ++ hc :: rest) pools att =
        { attempted := att ++ pre.map (fun h => normalizeHost dp h.host) ++
            [normalizeHost dp hc.host],
          pools := { clients := pools.clients ++ pre.map (fun h => normalizeHost dp h.host),
                     sftps := pools.sftps ++ pre.map (fun h => normalizeHost dp h.host) },
          err := some "ssh dial error" } := by
  intro pre
  induction pre with
  | nil =>
    intro hc rest pools att _ hd
    simp [initClientGo, hd]
  | cons p ps ih =>
    intro hc rest pools att hok hd
    have h1 := hok p (by simp)
    rw [List.cons_append, initClientGo]
    simp only [h1.1, h1.2, Bool.not_true, Bool.false_eq_true, if_false]
    rw [ih hc rest _ _ (fun x hx => hok x (List.mem_cons_of_mem p hx)) hd]
    simp

/-- C3 (counterexample): with one reachable host followed by one
undialable host, `Start` returns the dial error but the SSH client and
SFTP session already opened for the first host are still open when
`Start` returns — the claim that every already-opened channel and
session is closed on the abort path is false. -/
theorem C3_counterexample :
    (tLeak.Start).err = some "ssh dial error" ∧
    (tLeak.Start).openAtExit.clients = ["10.0.0.1:22"] ∧
    (tLeak.Start).openAtExit.sftps = ["10.0.0.1:22"] ∧
    (tLeak.Start).results = [] := by
  refine ⟨by decide, by decide, by decide, by decide⟩

theorem initClientGo_sftp_fail (dp : Nat) :
    ∀ (pre : List HostConn) (hc : HostConn) (rest : List HostConn)
      (pools : ClientPools) (att : List String),
      (∀ x ∈ pre, x.dialOk = true ∧ x.sftpOk = true) →
      hc.dialOk = true → hc.sftpOk = false →
      initClientGo dp (pre ++ hc :: rest) pools att =
        { attempted := att ++ pre.map (fun h => normalizeHost dp h.host) ++
            [normalizeHost dp hc.host],
          pools := { clients := pools.clients ++ pre.map (fun h => normalizeHost dp h.host) ++
                       [normalizeHost dp hc.host],
                     sftps := pools.sftps ++ pre.map (fun h => normalizeHost dp h.host) },
          err := some "sftp session error" } := by
  intro pre
  induction pre with
  | nil =>
    intro hc rest pools att _ hdial hsftp
    simp [initClientGo, hdial, hsftp]
  | cons p ps ih =>
    intro hc rest pools att hok hdial hsftp
    have h1 := hok p (by simp)
    rw [List.cons_append, initClientGo]
    simp only [h1.1, h1.2, Bool.not_true, Bool.false_eq_true, if_false]
    rw [ih hc rest _ _ (fun x hx => hok x (List.mem_cons_of_mem p hx)) hdial hsftp]
    simp

/-- C3 (amended): if dialing or SFTP session negotiation fails for some
host during connection establishment, the run aborts immediately
returning that error — later hosts are not dialed and no transfer is
attempted — but the channels and sessions already opened are NOT closed
on this abort path: the sessions of all earlier hosts remain open
(leaked) when `Start` returns, and on an SFTP negotiation failure the
failing host's own SSH channel is left open as well. -/
theorem C3_connect_failure_leaks (t : Transfer) (pre : List HostConn) (hc : HostConn)
    (rest : List HostConn) (hh : t.Hosts = pre ++ hc :: rest)
    (hok : ∀ x ∈ pre, x.dialOk = true ∧ x.sftpOk = true)
    (hfail : hc.dialOk = false ∨ hc.sftpOk = false) :
    t.Start.err = some (if hc.dialOk then "sftp session error" else "ssh dial error") ∧
    t.Start.results = [] ∧
    t.Start.dialAttempts =
      pre.map (fun h => normalizeHost t.defaultPort h.host) ++
        [normalizeHost t.defaultPort hc.host] ∧
    t.Start.openAtExit =
      { clients := pre.map (fun h => normalizeHost t.defaultPort h.host) ++
          (if hc.dialOk then [normalizeHost t.defaultPort hc.host] else []),
        sftps := pre.map (fun h => normalizeHost t.defaultPort h.host) } := by
  by_cases hdial : hc.dialOk = true
  · have hsftp : hc.sftpOk = false := by
      rcases hfail with hf | hf
      · rw [hdial] at hf
        exact absurd hf (by simp)
      · exact hf
    have hinit : t.initClient =
        { attempted := pre.map (fun h => normalizeHost t.defaultPort h.host) ++
            [normalizeHost t.defaultPort hc.host],
          pools := { clients := pre.map (fun h => normalizeHost t.defaultPort h.host) ++
                       [normalizeHost t.defaultPort hc.host],
                     sftps := pre.map (fun h => normalizeHost t.defaultPort h.host) },
          err := some "sftp session error" } := by
      unfold Transfer.initClient
      rw [hh]
      rw [initClientGo_sftp_fail t.defaultPort pre hc rest _ _ hok hdial hsftp]
      simp
    simp [Transfer.Start, hinit, hdial]
  · have hd : hc.dialOk = false := by
      simpa using hdial
    have hinit : t.initClient =
        { attempted := pre.map (fun h => normalizeHost t.defaultPort h.host) ++
            [normalizeHost t.defaultPort hc.host],
          pools := { clients := pre.map (fun h => normalizeHost t.defaultPort h.host),
                     sftps := pre.map (fun h => normalizeHost t.defaultPort h.host) },
          err := some "ssh dial error" } := by
      unfold Transfer.initClient
      rw [hh]
      rw [initClientGo_fail t.defaultPort pre hc rest _ _ hok hd]
      simp
    simp [Transfer.Start, hinit, hd]

/-- C3 witness: the amended statement applied concretely to a dial
failure (host 10.0.0.2) and to an SFTP negotiation failure (host
10.0.0.3); in the second case the failing host's own SSH channel is
left open in addition to the earlier host's sessions. -/
theorem C3_witness :
    ((tLeak.Start).openAtExit =
      { clients := [hostOkA].map (fun h => normalizeHost tLeak.defaultPort h.host) ++
          (if hostBad.dialOk then [normalizeHost tLeak.defaultPort hostBad.host] else []),
        sftps := [hostOkA].map (fun h => normalizeHost tLeak.defaultPort h.host) }) ∧
    ((tLeakSftp.Start).openAtExit =
      { clients := [hostOkA].map (fun h => normalizeHost tLeakSftp.defaultPort h.host) ++
          (if hostSftpBad.dialOk then [normalizeHost tLeakSftp.defaultPort hostSftpBad.host]
           else []),
        sftps := [hostOkA].map (fun h => normalizeHost tLeakSftp.defaultPort h.host) }) :=
  ⟨(C3_connect_failure_leaks tLeak [hostOkA] hostBad [] rfl (by decide) (Or.inl rfl)).2.2.2,
   (C3_connect_failure_leaks tLeakSftp [hostOkA] hostSftpBad [] rfl (by decide)
      (Or.inr rfl)).2.2.2⟩

/-- C4 (counterexample): a fetch whose local destination is an existing
regular file does dial the host before terminating: the claim that the
run terminates without attempting any network connection is false. -/
theorem C4_counterexample :
    (tFileDest.Start).fatal = true ∧
    (tFileDest.Start).dialAttempts = ["10.0.0.1:22"] ∧
    (tFileDest.Start).dialAttempts ≠ [] := by
  refine ⟨by decide, by decide, by decide⟩

/-- C4 (amended): a fetch run whose local destination path is an
existing regular file terminates the process (fatal log) having
performed no transfer and recorded no outcome, but only after network
connections to all hosts were established by `initClient`; those
connections are not closed by the fatal exit. -/
theorem C4_fetch_file_dest (t : Transfer) (hm : t.Method = "GET")
    (hl : t.localStat = .file)
    (hok : ∀ x ∈ t.Hosts, x.dialOk = true ∧ x.sftpOk = true) :
    t.Start.fatal = true ∧ t.Start.results = [] ∧ t.Start.err = none ∧
    t.Start.dialAttempts = t.Hosts.map (fun h => normalizeHost t.defaultPort h.host) ∧
    t.Start.openAtExit =
      { clients := t.Hosts.map (fun h => normalizeHost t.defaultPort h.host),
        sftps := t.Hosts.map (fun h => normalizeHost t.defaultPort h.host) } := by
  have hinit : t.initClient =
      { attempted := t.Hosts.map (fun h => normalizeHost t.defaultPort h.host),
        pools := { clients := t.Hosts.map (fun h => normalizeHost t.defaultPort h.host),
                   sftps := t.Hosts.map (fun h => normalizeHost t.defaultPort h.host) },
        err := none } := by
    unfold Transfer.initClient
    rw [initClientGo_all_ok t.defaultPort t.Hosts _ _ hok]
    simp
  simp [Transfer.Start, hinit, hm, hl, TransferGet]

/-- C4 witness: the amended statement applied to the concrete
file-destination fetch. -/
theorem C4_witness :
    (tFileDest.Start).fatal = true ∧ (tFileDest.Start).results = [] :=
  ⟨(C4_fetch_file_dest tFileDest rfl rfl (by decide)).1,
   (C4_fetch_file_dest tFileDest rfl rfl (by decide)).2.1⟩

/-- C10: for a Transfer whose Method is neither GET nor PUT, `Start`
establishes connections to all hosts, closes them, performs no
transfer, records no outcome, and returns nil. -/
theorem C10_unknown_method (t : Transfer) (h1 : t.Method ≠ TransferGet)
    (h2 : t.Method ≠ TransferPut)
    (hok : ∀ x ∈ t.Hosts, x.dialOk = true ∧ x.sftpOk = true) :
    t.Start =
      { err := none, fatal := false,
        dialAttempts := t.Hosts.map (fun h => normalizeHost t.defaultPort h.host),
        openAtExit := emptyPools, results := [] } := by
  have hinit : t.initClient =
      { attempted := t.Hosts.map (fun h => normalizeHost t.defaultPort h.host),
        pools := { clients := t.Hosts.map (fun h => normalizeHost t.defaultPort h.host),
                   sftps := t.Hosts.map (fun h => normalizeHost t.defaultPort h.host) },
        err := none } := by
    unfold Transfer.initClient
    rw [initClientGo_all_ok t.defaultPort t.Hosts _ _ hok]
    simp
  simp [Transfer.Start, hinit, h1, h2]

/-- C10 witness: the POST-method configuration dials its host, closes
everything and reports nothing. -/
theorem C10_witness :
    tPost.Start =
      { err := none, fatal := false, dialAttempts := ["10.0.0.1:22"],
        openAtExit := emptyPools, results := [] } := by
  rw [C10_unknown_method tPost (by decide) (by decide) (by decide)]
  rfl

/-- C8 (counterexample): sending local file `b` to remote path `a//`
produces the effective remote target `a/b` (the join is cleaned), not
the claimed `a//b` (the path with the basename appended). -/
theorem C8_counterexample :
    ((tSlash.put envSimple).recorded.map (fun p => p.2.Target)) = some "a/b" ∧
    tSlash.RemotePath ++ goPathBase tSlash.LocalPath = "a//b" ∧
    ("a/b" : String) ≠ "a//b" := by
  refine ⟨by decide, by decide, by decide⟩

/-- C8 (amended): for every send, the effective remote target recorded
for the transfer is the Go `path.Join` of the remote path and the local
file's basename when the remote path ends in the separator `/` (the
join normalizes redundant separators and dot segments), and the remote
path unchanged otherwise. -/
theorem C8_put_target (t : Transfer) (env : HostEnv) (k : String) (ft : FileTransfer)
    (h : (t.put env).recorded = some (k, ft)) :
    ft.Target = (if hasSlashSuffix t.RemotePath then
      goPathJoin t.RemotePath (goPathBase t.LocalPath) else t.RemotePath) := by
  have := (put_recorded_eq t env k ft h).2.1
  rw [this]

/-- C8 witness: the concrete double-slash send records target `a/b`,
the cleaned join. -/
theorem C8_witness :
    ({ Source := "b", Target := "a/b", Size := 0, Elapse := 0 } : FileTransfer).Target =
      (if hasSlashSuffix tSlash.RemotePath then
        goPathJoin tSlash.RemotePath (goPathBase tSlash.LocalPath) else tSlash.RemotePath) :=
  C8_put_target tSlash envSimple "10.0.0.1:22" _ (by decide)

/-- C9 (counterexample): the printed line right-justifies the host in a
21-character field, so for the one-character host `h` the line is not
exactly `<host>: ...` — it carries 20 leading spaces. -/
theorem C9_counterexample :
    prettyLine "h" { Source := "s", Target := "t", Size := 1, Elapse := 0 } =
      "                    h: s => t 1Byte 0.00 seconds" ∧
    claimLine "h" { Source := "s", Target := "t", Size := 1, Elapse := 0 } =
      "h: s => t 1Byte 0.00 seconds" ∧
    prettyLine "h" { Source := "s", Target := "t", Size := 1, Elapse := 0 } ≠
      claimLine "h" { Source := "s", Target := "t", Size := 1, Elapse := 0 } := by
  refine ⟨by decide, by decide, by decide⟩

/-- C9 (amended): every printed result line is
`<host>: <source> => <destination> <bytes>Byte <elapsed with 2 decimals> seconds`
except that the host is right-justified in a 21-character minimum
field; `PrettyPrint` emits exactly one line per entry of the result
map. -/
theorem C9_pretty_line :
    (∀ (h : String) (ft : FileTransfer),
      prettyLine h ft =
        String.mk (List.replicate (21 - h.length) ' ') ++ claimLine h ft) ∧
    (∀ rs, (Transfer.PrettyPrint rs).length = rs.length) := by
  constructor
  · intro h ft
    unfold prettyLine claimLine padHost
    simp only [String.append_assoc]
  · intro rs
    simp [Transfer.PrettyPrint]

end Deployer
